import Mathlib

/-!
Shallow embedding of `docs/sphinxext/edit_on_bitbucket.py`, a Sphinx
extension that adds "edit on bitbucket" links to every generated page and
to every documented Python object.

Modelling conventions:
* Docutils / Sphinx nodes become the inductive `Node`: a kind, an
  attribute record and a list of children.  `docutils` elements carry an
  attribute dictionary; the fields of `Attrs` are exactly the keys the
  extension reads or writes (`classes`, `domain`, `module`, `fullname`,
  `expr`, `refuri`, `reftitle`, plus the raw text payload of `raw`,
  `Text` and `inline` nodes).
* The Python regular-expression call `re.match(pattern, path)` is
  embedded by a small regex AST `RE` (characters, `.`, alternation,
  concatenation, Kleene star) and a Brzozowski-derivative matcher.
  `reMatch` is anchored at the start of the string and succeeds when any
  prefix matches, exactly the truthiness of `re.match`; `reSearch` is
  the unanchored variant (the truthiness of `re.search`), used only to
  contrast the two.  `RE.dot` matches every character; Python's `.`
  excludes the newline, which no document path contains.
* The runtime environment consulted by `import_object` and
  `inspect.getsourcelines` is the record `Env`: Python objects are
  abstract identifiers (`Nat`), `importMod` returns the module object or
  `none` when `__import__`/`sys.modules` raises, `getattr` resolves one
  attribute step or `none` on `AttributeError`, and `getsourcelines`
  returns the line number or `none` when introspection raises.
* `os.path.relpath(doctree.get('source'), app.builder.srcdir)` is an
  input of the embedded callback (`docPath`), since it only depends on
  the build environment.
* Python exceptions escaping the callback are modelled by the second
  component of `doctree_read`'s result: `none` when the callback
  returns normally, `some e` when it raises `e`; the first component is
  the document tree at that moment (mutations are in place, and both
  `raise` sites occur before any mutation).
-/

/-! ## Regular expressions: the truthiness of `re.match` -/

/-- Abstract syntax of the regular expressions relevant to the
extension (the default skip pattern is `_.*`). -/
inductive RE where
  | emp : RE
  | eps : RE
  | chr : Char → RE
  | dot : RE
  | seq : RE → RE → RE
  | alt : RE → RE → RE
  | star : RE → RE
deriving Repr, DecidableEq

/-- Does the regular expression accept the empty string? -/
def RE.nullable : RE → Bool
  | .emp => false
  | .eps => true
  | .chr _ => false
  | .dot => false
  | .seq a b => a.nullable && b.nullable
  | .alt a b => a.nullable || b.nullable
  | .star _ => true

/-- Brzozowski derivative of a regular expression by one character. -/
def RE.deriv : RE → Char → RE
  | .emp, _ => .emp
  | .eps, _ => .emp
  | .chr c, x => if x = c then .eps else .emp
  | .dot, _ => .eps
  | .seq a b, x =>
      if a.nullable then .alt (.seq (a.deriv x) b) (b.deriv x)
      else .seq (a.deriv x) b
  | .alt a b, x => .alt (a.deriv x) (b.deriv x)
  | .star r, x => .seq (r.deriv x) (.star r)

/-- Anchored match on a character list: true when some prefix of the
list (possibly empty) is accepted by `r`. -/
def reMatchL (r : RE) : List Char → Bool
  | [] => r.nullable
  | c :: cs => r.nullable || reMatchL (r.deriv c) cs

/-- Truthiness of Python's `re.match(r, s)`: the match is anchored at
the start of `s` and may cover any prefix. -/
def reMatch (r : RE) (s : String) : Bool := reMatchL r s.data

/-- Unanchored match (truthiness of `re.search(r, s)`): some prefix of
some suffix matches.  The extension does NOT use this; it exists to
state that the skip test is anchored. -/
def reSearchL (r : RE) : List Char → Bool
  | [] => r.nullable
  | c :: cs => reMatchL r (c :: cs) || reSearchL r cs

/-- Unanchored match on a string. -/
def reSearch (r : RE) (s : String) : Bool := reSearchL r s.data

/-- The default `edit_on_bitbucket_skip_regex` pattern `'_.*'`
registered by `setup`. -/
def defaultSkipRegex : RE := .seq (.chr '_') (.star .dot)

/-! ## Strings: Python `str.endswith` and `str.replace` -/

/-- Truthiness of Python's `s.endswith(t)`. -/
def pyEndsWith (s t : String) : Bool := t.data.isSuffixOf s.data

/-- Python's `modname.replace('.', '/')`: the pattern is a single
character, so the replacement is a character-wise map. -/
def dotsToSlashes (s : String) : String :=
  ⟨s.data.map (fun c => if c = '.' then '/' else c)⟩

/-- Root normalisation performed (twice, once per root) at the top of
`doctree_read`:
`if root != '' and not root.endswith('/'): root += '/'`. -/
def normRoot (s : String) : String :=
  if s ≠ "" && !(pyEndsWith s "/") then s ++ "/" else s

/-! ## The document tree -/

/-- Node classes of `docutils.nodes` / `sphinx.addnodes` that the
extension inspects or constructs. -/
inductive NodeKind where
  | document
  | section
  | paragraph
  | only
  | reference
  | inline
  | raw
  | text
  | desc
  | desc_signature
  | desc_content
  | other
deriving Repr, DecidableEq

/-- Attribute dictionary of a node: exactly the keys the extension
reads or writes.  Absent keys are `none` (`Element.get` returns
`None`); `classes` defaults to the empty list.  `rawtext` holds the
text payload of `raw` / `Text` nodes. -/
structure Attrs where
  classes : List String := []
  domain : Option String := none
  module : Option String := none
  fullname : Option String := none
  expr : Option String := none
  refuri : Option String := none
  reftitle : Option String := none
  rawtext : Option String := none
  format : Option String := none
deriving Repr, DecidableEq

/-- A docutils node: kind, attributes, children. -/
inductive Node where
  | node : NodeKind → Attrs → List Node → Node
deriving Repr

/-- Kind of a node. -/
def Node.kind : Node → NodeKind
  | .node k _ _ => k

/-- Attribute record of a node. -/
def Node.attrs : Node → Attrs
  | .node _ a _ => a

/-- Children of a node. -/
def Node.children : Node → List Node
  | .node _ _ cs => cs

/-- The `classes` attribute of a node. -/
def Node.classes (n : Node) : List String := n.attrs.classes

/-- Python's `node += child`: append one child. -/
def Node.appendChild (n : Node) (c : Node) : Node :=
  .node n.kind n.attrs (n.children ++ [c])

/-! ## The runtime environment of `import_object` -/

/-- Outcome of the interpreter-level operations the extension performs,
with Python objects abstracted to identifiers.  `none` models the
operation raising an exception (or, for `importMod`, a missing
`sys.modules` entry). -/
structure Env where
  importMod : String → Option Nat
  getattr : Nat → String → Option Nat
  getsourcelines : Nat → Option Nat

/-- Environment in which every import, attribute lookup and source-line
introspection fails. -/
def emptyEnv : Env :=
  { importMod := fun _ => none
    getattr := fun _ _ => none
    getsourcelines := fun _ => none }

/-- Embedding of `import_object(modname, name)`: import the module,
then fold `getattr` over the dot-separated parts of `name`; any raised
exception is caught by the bare `except:` and yields `None`.  The
callback passes `signode.get('fullname')`, which may be `None`; then
`name.split('.')` raises `AttributeError` inside the `try`, so the
result is again `None`. -/
def import_object (env : Env) (modname : String) (name : Option String) : Option Nat :=
  match env.importMod modname with
  | none => none
  | some mod =>
    match name with
    | none => none
    | some nm =>
      ((nm.data.splitOn '.').map (fun l => String.mk l)).foldl
        (fun o part => o.bind (fun x => env.getattr x part)) (some mod)

/-- The `anchor` computed for one signature node: `import_object`, then
`inspect.getsourcelines`; on success `'#cl-%d' % lineno`, on any
failure `None` (the `except: pass` leaves `anchor = None`). -/
def anchorFor (env : Env) (modname : String) (fullname : Option String) : Option String :=
  match import_object env modname fullname with
  | none => none
  | some obj => (env.getsourcelines obj).map (fun n => "#cl-" ++ toString n)

/-! ## Configuration -/

/-- The `edit_on_bitbucket_*` configuration values read by
`doctree_read`.  The skip pattern is carried as a regex AST. -/
structure Config where
  project : String
  source_root : String
  doc_root : String
  docstring_message : String
  page_message : String
  help_message : String
  skip_regex : RE

/-- Defaults registered by `setup` (the project identifier defaults to
the sentinel `'REQUIRED'`). -/
def defaultConfig : Config :=
  { project := "REQUIRED"
    source_root := "lib"
    doc_root := "doc"
    docstring_message := "[bitbucket]"
    page_message := "[edit this page on bitbucket]"
    help_message := "Push the Edit button on the next page"
    skip_regex := defaultSkipRegex }

/-- Exceptions the callback can raise. -/
inductive Err where
  | valueError : String → Err
  | indexError : Err
deriving Repr, DecidableEq

/-- Message of the `ValueError` raised when the project identifier is
left at its sentinel. -/
def sentinelMsg : String :=
  "The edit_on_bitbucket_project configuration variable must be " ++
    "provided in the conf.py"

/-! ## Docstring-edit links (second pass of `doctree_read`) -/

/-- Parameters of the docstring pass: the environment plus the values
of `url`, the normalised `source_root` and the two message strings, as
computed at the top of `doctree_read`. -/
structure DParams where
  env : Env
  url : String
  source_root : String
  help_message : String
  docstring_message : String

/-- The `only(expr='html')` subtree appended to a signature node:
`reference(reftitle=…, refuri=path)` containing
`inline('', '', raw('', '&nbsp;', format='html'), Text(message),
classes=['edit-on-bitbucket', 'viewcode-link'])`. -/
def docstringLinkNode (P : DParams) (path : String) : Node :=
  .node .only { expr := some "html" } [
    .node .reference { reftitle := some P.help_message, refuri := some path } [
      .node .inline { classes := ["edit-on-bitbucket", "viewcode-link"] } [
        .node .raw { rawtext := some "&nbsp;", format := some "html" } [],
        .node .text { rawtext := some P.docstring_message } []]]]

/-- Body of the `for signode in objnode:` loop for one child of a
`desc` node, threading the `names` set (modelled as a list).  Skips
non-signature children, children with a falsy `module`
(`None` or `''`), and fullnames already in `names`; otherwise records
the fullname, resolves the anchor and, on success, appends the link
node with `'%s%s%s.py%s' % (url, source_root, modname.replace('.','/'),
anchor)`. -/
def descStep (P : DParams) (names : List (Option String)) (s : Node) :
    List (Option String) × Node :=
  match s with
  | .node k a cs =>
    if k ≠ .desc_signature then (names, s)
    else
      match a.module with
      | none => (names, s)
      | some m =>
        if m = "" then (names, s)
        else if a.fullname ∈ names then (names, s)
        else
          let names' := names ++ [a.fullname]
          match anchorFor P.env m a.fullname with
          | none => (names', s)
          | some anchor =>
            (names',
              .node k a
                (cs ++ [docstringLinkNode P
                  (P.url ++ P.source_root ++ dotsToSlashes m ++ ".py" ++ anchor)]))

/-- The `for signode in objnode:` loop over the children of one `desc`
node, starting from a given `names` set. -/
def descGo (P : DParams) (names : List (Option String)) : List Node → List Node
  | [] => []
  | c :: rest =>
    let r := descStep P names c
    r.2 :: descGo P r.1 rest

/-- The `names` set after the loop has processed a list of children. -/
def descNames (P : DParams) (names : List (Option String)) : List Node → List (Option String)
  | [] => names
  | c :: rest => descNames P (descStep P names c).1 rest

/-- Full docstring pass: `doctree.traverse(addnodes.desc)` visits every
`desc` node of the tree; for each one in the `'py'` domain the loop
above runs over its direct children with a fresh `names` set.  Every
mutation is local to the visited `desc` node's signature children, so
the traversal is embedded as one recursive sweep. -/
def docstringPass (P : DParams) : Node → Node
  | .node k a cs =>
    let cs' := cs.attach.map (fun c => docstringPass P c.1)
    .node k a (if k = .desc ∧ a.domain = some "py" then descGo P [] cs' else cs')
termination_by n => sizeOf n
decreasing_by
  have := List.sizeOf_lt_of_mem c.2
  simp only [Node.node.sizeOf_spec]
  omega

/-! ## Page-edit link (first pass of `doctree_read`) -/

/-- The paragraph built for the "edit this page" link:
`paragraph(classes=['edit-on-bitbucket-para'])` containing
`only(expr='html')` containing `reference(reftitle=…, refuri=path)`
containing `inline('', page_message, classes=['edit-on-bitbucket'])`
(whose text argument becomes one `Text` child). -/
def pageEditPara (help path pageMsg : String) : Node :=
  .node .paragraph { classes := ["edit-on-bitbucket-para"] } [
    .node .only { expr := some "html" } [
      .node .reference { reftitle := some help, refuri := some path } [
        .node .inline { classes := ["edit-on-bitbucket"] } [
          .node .text { rawtext := some pageMsg } []]]]]

/-- The docstring-pass parameters as computed inside `doctree_read`. -/
def mkParams (cfg : Config) (env : Env) : DParams :=
  { env := env
    url := "http://bitbucket.org/" ++ cfg.project ++ "/src/tip/"
    source_root := normRoot cfg.source_root
    help_message := cfg.help_message
    docstring_message := cfg.docstring_message }

/-- Embedding of the `doctree_read` callback.  `docPath` is
`os.path.relpath(doctree.get('source'), app.builder.srcdir)`.  Returns
the tree after the callback together with the exception it raises, if
any: the sentinel project identifier raises `ValueError` before
anything else; `doctree[-1]` on a childless tree raises `IndexError`
(Python's negative indexing of an empty child list); both happen before
any mutation of the tree.  Otherwise the page-edit paragraph is
appended (into the trailing `edit-section` node when one exists, else
wrapped in a fresh one), and the docstring pass then runs over the
resulting tree. -/
def doctree_read (cfg : Config) (env : Env) (docPath : String) (t : Node) :
    Node × Option Err :=
  if cfg.project = "REQUIRED" then (t, some (.valueError sentinelMsg))
  else
    let doc_root := normRoot cfg.doc_root
    let url := "http://bitbucket.org/" ++ cfg.project ++ "/src/tip/"
    if reMatch cfg.skip_regex docPath then (docstringPass (mkParams cfg env) t, none)
    else
      match t with
      | .node k a cs =>
        match cs.getLast? with
        | none => (t, some .indexError)
        | some last =>
          let para := pageEditPara cfg.help_message (url ++ doc_root ++ docPath)
            cfg.page_message
          let t' :=
            if "edit-section" ∈ last.classes then
              Node.node k a (cs.dropLast ++ [last.appendChild para])
            else
              Node.node k a
                (cs ++ [Node.node .section { classes := ["edit-section"] } [para]])
          (docstringPass (mkParams cfg env) t', none)

/-! ## Observation functions and concrete sample data -/

/-- Number of nodes in the tree carrying the class
`'edit-on-bitbucket-para'`, i.e. of page-edit paragraphs. -/
def countEditParas : Node → Nat
  | .node _ a cs =>
    (if "edit-on-bitbucket-para" ∈ a.classes then 1 else 0) +
      (cs.attach.map (fun c => countEditParas c.1)).sum
termination_by n => sizeOf n
decreasing_by
  have := List.sizeOf_lt_of_mem c.2
  simp only [Node.node.sizeOf_spec]
  omega

/-- Fullnames for which the loop over one `desc` node's children
reaches the `import_object` call (a "link attempt"): exactly the
children at which the `names` set grows. -/
def descAttempts (P : DParams) (names : List (Option String)) : List Node → List (Option String)
  | [] => []
  | c :: rest =>
    let r := descStep P names c
    (if r.1.length = names.length then [] else [c.attrs.fullname]) ++ descAttempts P r.1 rest

/-- A configuration with the project identifier set (not the
sentinel), everything else at its default. -/
def validConfig : Config := { defaultConfig with project := "user/project" }

/-- The valid configuration with the skip pattern `'a'`: a pattern that
matches in the middle of `"ba"` but not at its start. -/
def midConfig : Config := { validConfig with skip_regex := .chr 'a' }

/-- Environment in which module `"pkg.mod"` imports as object `0`, its
attribute `"f"` is object `1`, and object `1` is defined at source line
`42`; everything else fails. -/
def lineEnv : Env :=
  { importMod := fun s => if s = "pkg.mod" then some 0 else none
    getattr := fun o s => if o = 0 ∧ s = "f" then some 1 else none
    getsourcelines := fun o => if o = 1 then some 42 else none }

/-- Docstring-pass parameters as `doctree_read` would compute them from
`validConfig` and `lineEnv`. -/
def sampleParams : DParams := mkParams validConfig lineEnv

/-- Docstring-pass parameters over the environment in which every
resolution fails. -/
def failParams : DParams := mkParams validConfig emptyEnv

/-- Attributes of a sample signature node for `pkg.mod.f`. -/
def sigAttrs : Attrs := { module := some "pkg.mod", fullname := some "f" }

/-- A sample document tree: a document with one (empty) section. -/
def sampleTree : Node := .node .document {} [.node .section {} []]

/-! ## Basic lemmas about the embedding -/

/-- Unfolding equation for `docstringPass`. -/
theorem docstringPass_eq (P : DParams) (k : NodeKind) (a : Attrs) (cs : List Node) :
    docstringPass P (.node k a cs) =
      .node k a (if k = .desc ∧ a.domain = some "py"
        then descGo P [] (cs.map (docstringPass P))
        else cs.map (docstringPass P)) := by
  rw [docstringPass]
  simp [List.attach, List.attachWith, List.map_pmap]

/-- Induction over the document tree: to prove a property of every
node it suffices to prove it for a node from the property of all its
children. -/
theorem Node.ind_mem {P : Node → Prop}
    (h : ∀ k a cs, (∀ c ∈ cs, P c) → P (.node k a cs)) : ∀ n, P n
  | .node k a cs => h k a cs (fun c hc => Node.ind_mem h c)
termination_by n => sizeOf n
decreasing_by
  have := List.sizeOf_lt_of_mem hc
  simp only [Node.node.sizeOf_spec]
  omega

/-- Unfolding equation for `countEditParas`. -/
theorem countEditParas_eq (k : NodeKind) (a : Attrs) (cs : List Node) :
    countEditParas (.node k a cs) =
      (if "edit-on-bitbucket-para" ∈ a.classes then 1 else 0) +
        (cs.map countEditParas).sum := by
  rw [countEditParas]
  simp [List.attach, List.attachWith, List.map_pmap]

/-- The docstring link subtree contains no page-edit paragraph. -/
theorem countEditParas_link (P : DParams) (path : String) :
    countEditParas (docstringLinkNode P path) = 0 := by
  simp [docstringLinkNode, countEditParas_eq]

/-- The page-edit paragraph contains exactly one page-edit paragraph:
itself. -/
theorem countEditParas_pageEditPara (h u m : String) :
    countEditParas (pageEditPara h u m) = 1 := by
  simp [pageEditPara, countEditParas_eq]

/-- A child that is not a signature node is left alone by the loop
body, and the `names` set is unchanged. -/
theorem descStep_not_sig (P : DParams) (names : List (Option String)) (s : Node)
    (h : s.kind ≠ .desc_signature) : descStep P names s = (names, s) := by
  obtain ⟨k, a, cs⟩ := s
  simp only [Node.kind] at h
  simp [descStep, h]

/-- One loop step preserves the number of page-edit paragraphs of the
child. -/
theorem countEditParas_descStep (P : DParams) (names : List (Option String)) (s : Node) :
    countEditParas (descStep P names s).2 = countEditParas s := by
  obtain ⟨k, a, cs⟩ := s
  simp only [descStep]
  split
  · rfl
  · split
    · rfl
    · split
      · rfl
      · split
        · rfl
        · split
          · rfl
          · simp [countEditParas_eq, countEditParas_link]

/-- The loop over a `desc` node's children preserves the total number
of page-edit paragraphs. -/
theorem countEditParas_descGo (P : DParams) (names : List (Option String)) (cs : List Node) :
    ((descGo P names cs).map countEditParas).sum = (cs.map countEditParas).sum := by
  induction cs generalizing names with
  | nil => rfl
  | cons c rest ih => simp [descGo, countEditParas_descStep, ih]

/-- The loop preserves the number of children of a `desc` node. -/
theorem descGo_length (P : DParams) (names : List (Option String)) (cs : List Node) :
    (descGo P names cs).length = cs.length := by
  induction cs generalizing names with
  | nil => rfl
  | cons c rest ih => simp [descGo, ih]

/-- The loop over `xs ++ [c]` is the loop over `xs` followed by one
step on `c` with the accumulated `names` set. -/
theorem descGo_concat (P : DParams) (names : List (Option String)) (xs : List Node) (c : Node) :
    descGo P names (xs ++ [c]) =
      descGo P names xs ++ [(descStep P (descNames P names xs) c).2] := by
  induction xs generalizing names with
  | nil => simp [descGo, descNames]
  | cons x xs ih => simp [descGo, descNames, ih]

/-- The docstring pass adds no page-edit paragraph and removes none. -/
theorem countEditParas_docstringPass (P : DParams) (n : Node) :
    countEditParas (docstringPass P n) = countEditParas n := by
  induction n using Node.ind_mem with
  | _ k a cs ih =>
    rw [docstringPass_eq]
    split
    · rw [countEditParas_eq, countEditParas_eq, countEditParas_descGo]
      congr 1
      rw [List.map_map]
      exact congrArg List.sum (List.map_congr_left ih)
    · rw [countEditParas_eq, countEditParas_eq]
      congr 1
      rw [List.map_map]
      exact congrArg List.sum (List.map_congr_left ih)

/-- The page-edit paragraph is a fixed point of the docstring pass: it
contains no `desc` node. -/
theorem docstringPass_pageEditPara (P : DParams) (h u m : String) :
    docstringPass P (pageEditPara h u m) = pageEditPara h u m := by
  simp [pageEditPara, docstringPass_eq]

/-- On a `document` node the docstring pass just recurses into the
children. -/
theorem docstringPass_document (P : DParams) (a : Attrs) (cs : List Node) :
    docstringPass P (.node .document a cs) =
      .node .document a (cs.map (docstringPass P)) := by
  simp [docstringPass_eq]

/-- Appending a child adds its page-edit paragraphs to the count. -/
theorem countEditParas_appendChild (n c : Node) :
    countEditParas (n.appendChild c) = countEditParas n + countEditParas c := by
  obtain ⟨k, a, cs⟩ := n
  simp [Node.appendChild, Node.kind, Node.attrs, Node.children, countEditParas_eq]
  omega

/-- Shape of the docstring pass on a node whose last appended child is
the page-edit paragraph: kind and attributes survive, the paragraph
stays the last child, and the number of children is preserved. -/
theorem docstringPass_appendPara (P : DParams) (L : Node) (h u m : String) :
    ∃ cs', docstringPass P (L.appendChild (pageEditPara h u m)) =
        .node L.kind L.attrs (cs' ++ [pageEditPara h u m]) ∧
      cs'.length = L.children.length := by
  obtain ⟨k, a, cs⟩ := L
  simp only [Node.appendChild, Node.kind, Node.attrs, Node.children]
  rw [docstringPass_eq]
  split
  · refine ⟨descGo P [] (cs.map (docstringPass P)), ?_, by simp [descGo_length]⟩
    rw [List.map_append, List.map_singleton, docstringPass_pageEditPara, descGo_concat,
      descStep_not_sig _ _ _ (by simp [pageEditPara, Node.kind])]
  · refine ⟨cs.map (docstringPass P), ?_, by simp⟩
    rw [List.map_append, List.map_singleton, docstringPass_pageEditPara]

/-- The fresh `edit-section` node built around the page-edit paragraph
is (up to recursion into the paragraph, which is a fixed point) left
intact by the docstring pass. -/
theorem docstringPass_editSection (P : DParams) (h u m : String) :
    docstringPass P (.node .section { classes := ["edit-section"] } [pageEditPara h u m]) =
      .node .section { classes := ["edit-section"] } [pageEditPara h u m] := by
  rw [docstringPass_eq]
  simp [docstringPass_pageEditPara]

/-- Behaviour of the callback when nothing aborts it: the project is
set, the path is not skipped and the tree has a last child.  The
page-edit paragraph is appended into the last child when that child
carries the `edit-section` class, otherwise inside a fresh
`edit-section` node, and the docstring pass runs on the result. -/
theorem doctree_read_nonempty (cfg : Config) (env : Env) (p : String)
    (hp : cfg.project ≠ "REQUIRED") (hre : reMatch cfg.skip_regex p = false)
    (k : NodeKind) (a : Attrs) (ys : List Node) (L : Node) :
    doctree_read cfg env p (.node k a (ys ++ [L])) =
      (docstringPass (mkParams cfg env)
        (if "edit-section" ∈ L.classes then
          .node k a (ys ++ [L.appendChild (pageEditPara cfg.help_message
            ("http://bitbucket.org/" ++ cfg.project ++ "/src/tip/" ++
              normRoot cfg.doc_root ++ p) cfg.page_message)])
        else
          .node k a ((ys ++ [L]) ++ [.node .section { classes := ["edit-section"] }
            [pageEditPara cfg.help_message
              ("http://bitbucket.org/" ++ cfg.project ++ "/src/tip/" ++
                normRoot cfg.doc_root ++ p) cfg.page_message]])), none) := by
  simp only [doctree_read, hp, if_false, hre, Bool.false_eq_true, List.getLast?_concat,
    List.dropLast_concat, mkParams]

/-! ## The claims -/

/-- C8: when the project identifier equals the sentinel `'REQUIRED'`,
the callback raises the configuration `ValueError`; the check precedes
every tree mutation, so the document tree is returned completely
unmodified. -/
theorem sentinel_abort_leaves_tree_unmodified (cfg : Config) (env : Env) (p : String)
    (t : Node) (h : cfg.project = "REQUIRED") :
    doctree_read cfg env p t = (t, some (.valueError sentinelMsg)) := by
  simp [doctree_read, h]

/-- Witness: the sentinel abort at the default configuration, whose
project identifier is the sentinel. -/
theorem sentinel_abort_leaves_tree_unmodified_witness :
    doctree_read defaultConfig emptyEnv "index.rst" sampleTree =
      (sampleTree, some (.valueError sentinelMsg)) :=
  sentinel_abort_leaves_tree_unmodified defaultConfig emptyEnv "index.rst" sampleTree rfl

/-- C1 fails as stated: with a valid (non-sentinel) project identifier,
a childless document tree and a path the skip pattern does not match,
the callback raises `IndexError` (from `doctree[-1]` on an empty child
list) — a second fatal condition besides the configuration
`ValueError`. -/
theorem sentinel_not_only_fatal_counterexample :
    (doctree_read validConfig emptyEnv "index.rst" (Node.node .document {} [])).2 =
        some Err.indexError ∧
      validConfig.project ≠ "REQUIRED" :=
  ⟨rfl, by decide⟩

/-- C1 (amended): the callback raises the configuration `ValueError`
exactly when the project identifier equals the sentinel `'REQUIRED'`,
and for every invocation in which the tree has at least one child or
the path matches the skip pattern, this is the only fatal condition. -/
theorem sentinel_only_fatal_on_nonempty (cfg : Config) (env : Env) (p : String) (t : Node)
    (h : t.children ≠ [] ∨ reMatch cfg.skip_regex p = true) :
    (doctree_read cfg env p t).2 =
      if cfg.project = "REQUIRED" then some (Err.valueError sentinelMsg) else none := by
  obtain ⟨k, a, cs⟩ := t
  by_cases hp : cfg.project = "REQUIRED"
  · simp [doctree_read, hp]
  · cases hre : reMatch cfg.skip_regex p with
    | true => simp [doctree_read, hp, hre]
    | false =>
      have hcs : cs ≠ [] := by
        rcases h with h | h
        · simpa [Node.children] using h
        · rw [hre] at h
          cases h
      rcases List.eq_nil_or_concat' cs with rfl | ⟨ys, L, rfl⟩
      · cases hcs rfl
      · rw [doctree_read_nonempty cfg env p hp hre k a ys L]
        simp [hp]

/-- Witness: a non-sentinel project on a one-section document raises
nothing. -/
theorem sentinel_only_fatal_on_nonempty_witness :
    (doctree_read validConfig emptyEnv "index.rst" sampleTree).2 =
      if validConfig.project = "REQUIRED" then some (Err.valueError sentinelMsg) else none :=
  sentinel_only_fatal_on_nonempty validConfig emptyEnv "index.rst" sampleTree
    (Or.inl (by simp [sampleTree, Node.children]))

/-- C5: when the document path matches the skip pattern, the page-edit
pass leaves the tree untouched — the callback result is just the
docstring pass, and the number of page-edit paragraphs is unchanged. -/
theorem skip_match_no_page_link (cfg : Config) (env : Env) (p : String) (t : Node)
    (hp : cfg.project ≠ "REQUIRED") (hre : reMatch cfg.skip_regex p = true) :
    doctree_read cfg env p t = (docstringPass (mkParams cfg env) t, none) ∧
      countEditParas (doctree_read cfg env p t).1 = countEditParas t := by
  have h1 : doctree_read cfg env p t = (docstringPass (mkParams cfg env) t, none) := by
    simp [doctree_read, hp, hre]
  exact ⟨h1, by rw [h1]; exact countEditParas_docstringPass _ _⟩

/-- Witness: the default skip pattern `'_.*'` suppresses the page link
on a path starting with an underscore. -/
theorem skip_match_no_page_link_witness :
    doctree_read validConfig emptyEnv "_templates/layout.rst" sampleTree =
        (docstringPass (mkParams validConfig emptyEnv) sampleTree, none) ∧
      countEditParas (doctree_read validConfig emptyEnv "_templates/layout.rst" sampleTree).1 =
        countEditParas sampleTree :=
  skip_match_no_page_link validConfig emptyEnv "_templates/layout.rst" sampleTree
    (by decide) (by decide)

/-- C2 fails as stated only at the childless tree: there the callback
raises `IndexError` before appending anything, so no page-edit link is
added even though the project is valid and the path is not skipped. -/
theorem page_link_empty_tree_counterexample :
    countEditParas (doctree_read validConfig emptyEnv "start.rst" (Node.node .document {} [])).1 =
        countEditParas (Node.node .document {} []) ∧
      (doctree_read validConfig emptyEnv "start.rst" (Node.node .document {} [])).2 =
        some Err.indexError ∧
      reMatch validConfig.skip_regex "start.rst" = false ∧
      validConfig.project ≠ "REQUIRED" :=
  ⟨rfl, rfl, by decide, by decide⟩

/-- C2 (amended to trees with at least one child): with a valid
project identifier and a path the skip pattern does not match, the
callback appends exactly one page-edit link paragraph, and its URL is
`url ++ doc_root ++ docPath` with
`url = 'http://bitbucket.org/<project>/src/tip/'` and the roots
normalised. -/
theorem page_link_appended_once (cfg : Config) (env : Env) (p : String)
    (a : Attrs) (ys : List Node) (L : Node)
    (hp : cfg.project ≠ "REQUIRED") (hre : reMatch cfg.skip_regex p = false) :
    countEditParas (doctree_read cfg env p (.node .document a (ys ++ [L]))).1 =
        countEditParas (.node .document a (ys ++ [L])) + 1 ∧
      ∃ M, (doctree_read cfg env p (.node .document a (ys ++ [L]))).1.children.getLast? =
          some M ∧
        M.children.getLast? = some (pageEditPara cfg.help_message
          ("http://bitbucket.org/" ++ cfg.project ++ "/src/tip/" ++
            normRoot cfg.doc_root ++ p) cfg.page_message) := by
  rw [doctree_read_nonempty cfg env p hp hre .document a ys L]
  by_cases hcls : "edit-section" ∈ L.classes
  · rw [if_pos hcls]
    constructor
    · rw [countEditParas_docstringPass, countEditParas_eq, countEditParas_eq,
        List.map_append, List.map_append, List.map_singleton, List.map_singleton,
        List.sum_append, List.sum_append, countEditParas_appendChild,
        countEditParas_pageEditPara]
      simp only [List.sum_cons, List.sum_nil]
      omega
    · rw [docstringPass_document, List.map_append, List.map_singleton]
      obtain ⟨cs', hc1, _⟩ := docstringPass_appendPara (mkParams cfg env) L
        cfg.help_message ("http://bitbucket.org/" ++ cfg.project ++ "/src/tip/" ++
          normRoot cfg.doc_root ++ p) cfg.page_message
      refine ⟨docstringPass (mkParams cfg env) (L.appendChild (pageEditPara cfg.help_message
        ("http://bitbucket.org/" ++ cfg.project ++ "/src/tip/" ++
          normRoot cfg.doc_root ++ p) cfg.page_message)), ?_, ?_⟩
      · simp [Node.children, List.getLast?_concat]
      · rw [hc1]
        simp [Node.children, List.getLast?_concat]
  · rw [if_neg hcls]
    constructor
    · rw [countEditParas_docstringPass, countEditParas_eq, countEditParas_eq,
        List.map_append, List.map_singleton, List.sum_append, countEditParas_eq,
        List.map_singleton, countEditParas_pageEditPara]
      simp only [List.sum_cons, List.sum_nil]
      have : "edit-on-bitbucket-para" ∉ ["edit-section"] := by decide
      rw [if_neg this]
      omega
    · rw [docstringPass_document, List.map_append, List.map_singleton,
        docstringPass_editSection]
      refine ⟨.node .section { classes := ["edit-section"] }
        [pageEditPara cfg.help_message ("http://bitbucket.org/" ++ cfg.project ++
          "/src/tip/" ++ normRoot cfg.doc_root ++ p) cfg.page_message], ?_, ?_⟩
      · simp [Node.children, List.getLast?_concat]
      · simp [Node.children]

/-- Witness: one page-edit paragraph with the expected URL is appended
to a one-section document at the default roots. -/
theorem page_link_appended_once_witness :
    countEditParas (doctree_read validConfig emptyEnv "index.rst"
          (.node .document {} ([] ++ [Node.node .section {} []]))).1 =
        countEditParas (.node .document {} ([] ++ [Node.node .section {} []])) + 1 ∧
      ∃ M, (doctree_read validConfig emptyEnv "index.rst"
            (.node .document {} ([] ++ [Node.node .section {} []]))).1.children.getLast? =
          some M ∧
        M.children.getLast? = some (pageEditPara validConfig.help_message
          ("http://bitbucket.org/" ++ validConfig.project ++ "/src/tip/" ++
            normRoot validConfig.doc_root ++ "index.rst") validConfig.page_message) :=
  page_link_appended_once validConfig emptyEnv "index.rst" {} [] (Node.node .section {} [])
    (by decide) (by decide)

/-- C6: when the tree's last child already carries the `edit-section`
class, the callback appends the new page-edit paragraph into that
child: the number of top-level children is unchanged (no duplicate
edit section is created), the last child keeps the `edit-section`
class, and its new last child is the page-edit paragraph. -/
theorem existing_edit_section_reused (cfg : Config) (env : Env) (p : String)
    (a : Attrs) (ys : List Node) (L : Node)
    (hp : cfg.project ≠ "REQUIRED") (hre : reMatch cfg.skip_regex p = false)
    (hcls : "edit-section" ∈ L.classes) :
    (doctree_read cfg env p (.node .document a (ys ++ [L]))).1.children.length =
        (ys ++ [L]).length ∧
      ∃ M, (doctree_read cfg env p (.node .document a (ys ++ [L]))).1.children.getLast? =
          some M ∧
        "edit-section" ∈ M.classes ∧
        M.children.getLast? = some (pageEditPara cfg.help_message
          ("http://bitbucket.org/" ++ cfg.project ++ "/src/tip/" ++
            normRoot cfg.doc_root ++ p) cfg.page_message) := by
  rw [doctree_read_nonempty cfg env p hp hre .document a ys L, if_pos hcls,
    docstringPass_document, List.map_append, List.map_singleton]
  obtain ⟨cs', hc1, _⟩ := docstringPass_appendPara (mkParams cfg env) L
    cfg.help_message ("http://bitbucket.org/" ++ cfg.project ++ "/src/tip/" ++
      normRoot cfg.doc_root ++ p) cfg.page_message
  constructor
  · simp [Node.children]
  · refine ⟨docstringPass (mkParams cfg env) (L.appendChild (pageEditPara cfg.help_message
      ("http://bitbucket.org/" ++ cfg.project ++ "/src/tip/" ++
        normRoot cfg.doc_root ++ p) cfg.page_message)), ?_, ?_, ?_⟩
    · simp [Node.children, List.getLast?_concat]
    · rw [hc1]
      simpa [Node.classes, Node.attrs] using hcls
    · rw [hc1]
      simp [Node.children, List.getLast?_concat]

/-- Witness: re-invocation shape — a document whose last child is an
`edit-section` node gets the new paragraph inside it and keeps a
single top-level child. -/
theorem existing_edit_section_reused_witness :
    (doctree_read validConfig emptyEnv "index.rst" (.node .document {}
          ([] ++ [Node.node .section { classes := ["edit-section"] } []]))).1.children.length =
        ([] ++ [Node.node .section { classes := ["edit-section"] } []]).length ∧
      ∃ M, (doctree_read validConfig emptyEnv "index.rst" (.node .document {}
            ([] ++ [Node.node .section { classes := ["edit-section"] } []]))).1.children.getLast? =
          some M ∧
        "edit-section" ∈ M.classes ∧
        M.children.getLast? = some (pageEditPara validConfig.help_message
          ("http://bitbucket.org/" ++ validConfig.project ++ "/src/tip/" ++
            normRoot validConfig.doc_root ++ "index.rst") validConfig.page_message) :=
  existing_edit_section_reused validConfig emptyEnv "index.rst" {} []
    (Node.node .section { classes := ["edit-section"] } []) (by decide) (by decide)
    (by simp [Node.classes, Node.attrs])

/-- C3: for a signature node whose module and fullname resolve (via
the import machinery) to an object with source line `lineno`, the loop
appends a link node whose URL is
`url ++ source_root ++ modname.replace('.', '/') ++ '.py' ++ '#cl-<lineno>'`. -/
theorem docstring_link_url (P : DParams) (names : List (Option String)) (a : Attrs)
    (cs : List Node) (m : String) (obj lineno : Nat)
    (hm : a.module = some m) (hm0 : m ≠ "") (hn : a.fullname ∉ names)
    (hobj : import_object P.env m a.fullname = some obj)
    (hline : P.env.getsourcelines obj = some lineno) :
    descStep P names (.node .desc_signature a cs) =
      (names ++ [a.fullname],
        .node .desc_signature a (cs ++ [docstringLinkNode P
          (P.url ++ P.source_root ++ dotsToSlashes m ++ ".py" ++
            ("#cl-" ++ toString lineno))])) := by
  have ha : anchorFor P.env m a.fullname = some ("#cl-" ++ toString lineno) := by
    simp [anchorFor, hobj, hline]
  simp [descStep, hm, hm0, hn, ha]

/-- Witness: `pkg.mod.f` at source line 42 gets the link
`…/src/tip/lib/pkg/mod.py#cl-42` appended to its signature node. -/
theorem docstring_link_url_witness :
    descStep sampleParams [] (.node .desc_signature sigAttrs []) =
      ([some "f"],
        .node .desc_signature sigAttrs [docstringLinkNode sampleParams
          (sampleParams.url ++ sampleParams.source_root ++ dotsToSlashes "pkg.mod" ++
            ".py" ++ ("#cl-" ++ toString 42))]) :=
  docstring_link_url sampleParams [] sigAttrs [] "pkg.mod" 1 42 rfl (by decide)
    (by simp) rfl rfl

/-- C4: a resolution failure (failed import, missing attribute or
failed source-line introspection, i.e. `anchorFor … = none`) leaves the
signature node unchanged, and the callback's raised-exception outcome
never depends on the environment — no exception propagates from the
best-effort resolution. -/
theorem resolution_failure_silent :
    (∀ (P : DParams) (names : List (Option String)) (a : Attrs) (cs : List Node)
      (m : String), a.module = some m → anchorFor P.env m a.fullname = none →
        (descStep P names (.node .desc_signature a cs)).2 = .node .desc_signature a cs) ∧
      ∀ (cfg : Config) (env env' : Env) (p : String) (t : Node),
        (doctree_read cfg env p t).2 = (doctree_read cfg env' p t).2 := by
  constructor
  · intro P names a cs m hm ha
    by_cases h0 : m = ""
    · simp [descStep, hm, h0]
    · by_cases h1 : a.fullname ∈ names
      · simp [descStep, hm, h0, h1]
      · simp [descStep, hm, h0, h1, ha]
  · intro cfg env env' p t
    obtain ⟨k, a, cs⟩ := t
    by_cases hp : cfg.project = "REQUIRED"
    · simp [doctree_read, hp]
    · cases hre : reMatch cfg.skip_regex p with
      | true => simp [doctree_read, hp, hre]
      | false =>
        cases hcs : cs.getLast? with
        | none => simp [doctree_read, hp, hre, hcs]
        | some L => simp [doctree_read, hp, hre, hcs]

/-- Witness: a signature node for an unresolvable symbol is untouched,
and the callback raises the same (no) exception whether every
resolution fails or `pkg.mod.f` resolves. -/
theorem resolution_failure_silent_witness :
    (descStep failParams [] (.node .desc_signature sigAttrs [])).2 =
        .node .desc_signature sigAttrs [] ∧
      (doctree_read validConfig emptyEnv "index.rst" sampleTree).2 =
        (doctree_read validConfig lineEnv "index.rst" sampleTree).2 :=
  ⟨resolution_failure_silent.1 failParams [] sigAttrs [] "pkg.mod" rfl rfl,
    resolution_failure_silent.2 validConfig emptyEnv lineEnv "index.rst" sampleTree⟩

/-- Case analysis of one loop step on the `names` set: either the step
returns the pair unchanged, or it records the child's fullname, which
was not yet in the set. -/
theorem descStep_cases (P : DParams) (names : List (Option String)) (c : Node) :
    descStep P names c = (names, c) ∨
      ((descStep P names c).1 = names ++ [c.attrs.fullname] ∧ c.attrs.fullname ∉ names) := by
  obtain ⟨k, a, cs⟩ := c
  simp only [descStep, Node.attrs]
  split
  · exact Or.inl rfl
  · split
    · exact Or.inl rfl
    · split
      · exact Or.inl rfl
      · split
        · exact Or.inl rfl
        · rename_i hmem
          split
          · exact Or.inr ⟨rfl, hmem⟩
          · exact Or.inr ⟨rfl, hmem⟩

/-- Unfolding equation for `descAttempts` on a cons cell. -/
theorem descAttempts_cons (P : DParams) (names : List (Option String)) (c : Node)
    (rest : List Node) :
    descAttempts P names (c :: rest) =
      (if (descStep P names c).1.length = names.length then [] else [c.attrs.fullname]) ++
        descAttempts P (descStep P names c).1 rest := rfl

/-- Invariant of the attempt list: no attempted fullname was already in
the `names` set, and no fullname is attempted twice. -/
theorem descAttempts_nodup_aux (P : DParams) (cs : List Node) :
    ∀ names, (∀ x ∈ descAttempts P names cs, x ∉ names) ∧
      (descAttempts P names cs).Nodup := by
  induction cs with
  | nil =>
    intro names
    constructor
    · intro x hx
      simp [descAttempts] at hx
    · simp [descAttempts]
  | cons c rest ih =>
    intro names
    rcases descStep_cases P names c with h | ⟨h, hnotin⟩
    · have hlen : (descStep P names c).1.length = names.length := by rw [h]
      have hset : (descStep P names c).1 = names := by rw [h]
      constructor
      · intro x hx
        rw [descAttempts_cons, if_pos hlen, List.nil_append, hset] at hx
        exact (ih names).1 x hx
      · rw [descAttempts_cons, if_pos hlen, List.nil_append, hset]
        exact (ih names).2
    · have hlen : ¬ (descStep P names c).1.length = names.length := by
        rw [h]
        simp
      constructor
      · intro x hx
        rw [descAttempts_cons, if_neg hlen, h, List.singleton_append] at hx
        rcases List.mem_cons.mp hx with rfl | hx
        · exact hnotin
        · intro hmem
          exact (ih (names ++ [c.attrs.fullname])).1 x hx (List.mem_append_left _ hmem)
      · rw [descAttempts_cons, if_neg hlen, h, List.singleton_append]
        refine List.Nodup.cons ?_ (ih (names ++ [c.attrs.fullname])).2
        intro hmem
        exact (ih (names ++ [c.attrs.fullname])).1 c.attrs.fullname hmem
          (List.mem_append_right _ (List.mem_singleton.mpr rfl))

/-- C7: within one `desc` node each fullname reaches the
`import_object` call at most once (the attempt list has no
duplicates), and a child at which the `names` set does not grow is
returned unchanged — so at most one docstring link is attached per
unique fully-qualified name. -/
theorem one_link_attempt_per_fullname (P : DParams) (cs : List Node) :
    (descAttempts P [] cs).Nodup ∧
      ∀ (names : List (Option String)) (c : Node),
        (descStep P names c).1 = names → (descStep P names c).2 = c := by
  constructor
  · exact (descAttempts_nodup_aux P cs []).2
  · intro names c h
    rcases descStep_cases P names c with he | ⟨he, _⟩
    · rw [he]
    · rw [h] at he
      have := congrArg List.length he
      simp at this

/-- Witness: two signature nodes with the same fullname produce a
duplicate-free attempt list, and a non-signature child is returned
unchanged. -/
theorem one_link_attempt_per_fullname_witness :
    (descAttempts failParams [] [Node.node .desc_signature sigAttrs [],
        Node.node .desc_signature sigAttrs []]).Nodup ∧
      (descStep failParams [] sampleTree).2 = sampleTree :=
  ⟨(one_link_attempt_per_fullname failParams [Node.node .desc_signature sigAttrs [],
      Node.node .desc_signature sigAttrs []]).1,
    (one_link_attempt_per_fullname failParams []).2 [] sampleTree rfl⟩

/-- Appending a slash makes the string end with a slash. -/
theorem pyEndsWith_append_slash (s : String) : pyEndsWith (s ++ "/") "/" = true := by
  rw [pyEndsWith, String.data_append, show ("/" : String).data = ['/'] from rfl]
  exact List.isSuffixOf_iff_suffix.mpr (List.suffix_append _ _)

/-- Appending a slash to a string that does not already end with a
slash cannot produce a doubled trailing slash. -/
theorem pyEndsWith_append_slash_single (s : String) (h : pyEndsWith s "/" = false) :
    pyEndsWith (s ++ "/") "//" = false := by
  rw [pyEndsWith, String.data_append, show ("//" : String).data = ['/', '/'] from rfl]
  have hns : ¬ ((['/', '/'] : List Char) <:+ s.data ++ ['/']) := by
    rintro ⟨t, ht⟩
    have hs : s.data = t ++ ['/'] := by
      have h2 : (t ++ ['/']) ++ ['/'] = s.data ++ ['/'] := by
        simpa [List.append_assoc] using ht
      exact ((List.append_left_inj ['/']).mp h2).symm
    have : pyEndsWith s "/" = true := by
      rw [pyEndsWith, show ("/" : String).data = ['/'] from rfl, hs]
      exact List.isSuffixOf_iff_suffix.mpr (List.suffix_append _ _)
    simp [h] at this
  exact Bool.eq_false_iff.mpr (fun hc => hns (List.isSuffixOf_iff_suffix.mp hc))

/-- A string ending in a single slash does not end in a double
slash. -/
theorem pyEndsWith_keep_single (s : String) (h : pyEndsWith s "//" = false) :
    normRoot s = s → pyEndsWith (normRoot s) "//" = false := by
  intro he
  rw [he]
  exact h

/-- C9 fails as stated: a configured root that itself ends in a
doubled slash is left alone by the normalisation, so the constructed
URL carries a doubled separator at the root boundary. -/
theorem root_separator_doubled_counterexample :
    normRoot "lib//" = "lib//" ∧
      pyEndsWith (normRoot "lib//") "//" = true ∧
      "http://bitbucket.org/user/project/src/tip/" ++ normRoot "lib//" ++ "index.rst" =
        "http://bitbucket.org/user/project/src/tip/lib//index.rst" :=
  ⟨rfl, by decide, rfl⟩

/-- C9 (amended): a non-empty root not ending in `'/'` gets exactly one
`'/'` appended; the empty root stays empty; every non-empty normalised
root ends in `'/'` (the separator is never missing); and the boundary
separator is doubled only when the configured root itself already ends
in `'//'`. -/
theorem normRoot_separator (s : String) :
    normRoot "" = "" ∧
      (s ≠ "" → pyEndsWith (normRoot s) "/" = true) ∧
      (s ≠ "" → pyEndsWith s "/" = false → normRoot s = s ++ "/") ∧
      (pyEndsWith s "//" = false → pyEndsWith (normRoot s) "//" = false) := by
  refine ⟨rfl, ?_, ?_, ?_⟩
  · intro hs
    by_cases he : pyEndsWith s "/" = true
    · rw [normRoot, if_neg (by simp [he])]
      exact he
    · have he' : pyEndsWith s "/" = false := by
        cases hb : pyEndsWith s "/"
        · rfl
        · exact absurd hb he
      rw [normRoot, if_pos (by simp [hs, he'])]
      exact pyEndsWith_append_slash s
  · intro hs he
    rw [normRoot, if_pos (by simp [hs, he])]
  · intro h2
    by_cases hcond : (decide (s ≠ "") && !(pyEndsWith s "/")) = true
    · rw [normRoot, if_pos hcond]
      have he : pyEndsWith s "/" = false := by
        rcases Bool.and_eq_true_iff.mp hcond with ⟨_, hr⟩
        simpa using hr
      exact pyEndsWith_append_slash_single s he
    · rw [normRoot, if_neg hcond]
      exact h2

/-- Witness: the default source root `"lib"` is normalised to
`"lib/"`, ending in exactly one slash. -/
theorem normRoot_separator_witness :
    normRoot "" = "" ∧
      pyEndsWith (normRoot "lib") "/" = true ∧
      normRoot "lib" = "lib" ++ "/" ∧
      pyEndsWith (normRoot "lib") "//" = false :=
  ⟨(normRoot_separator "lib").1,
    (normRoot_separator "lib").2.1 (by decide),
    (normRoot_separator "lib").2.2.1 (by decide) (by decide),
    (normRoot_separator "lib").2.2.2 (by decide)⟩

/-- A nullable regular expression matches a prefix of every string. -/
theorem reMatchL_of_nullable (r : RE) (h : r.nullable = true) :
    ∀ cs : List Char, reMatchL r cs = true := by
  intro cs
  cases cs <;> simp [reMatchL, h]

/-- A concatenation headed by the empty regular expression matches
nothing. -/
theorem reMatchL_seq_emp (r2 : RE) : ∀ cs : List Char,
    reMatchL (RE.seq .emp r2) cs = false := by
  intro cs
  induction cs with
  | nil => simp [reMatchL, RE.nullable]
  | cons c cs ih => simpa [reMatchL, RE.nullable, RE.deriv] using ih

/-- The fresh `edit-section` node contains exactly one page-edit
paragraph. -/
theorem countEditParas_editSection (h u m : String) :
    countEditParas (.node .section { classes := ["edit-section"] }
      [pageEditPara h u m]) = 1 := by
  rw [countEditParas_eq, List.map_singleton, countEditParas_pageEditPara]
  simp

/-- Appending a fresh `edit-section` node raises the page-edit
paragraph count by exactly one. -/
theorem countEditParas_append_editSection (k : NodeKind) (a : Attrs) (cs : List Node)
    (h u m : String) :
    countEditParas (.node k a (cs ++ [.node .section { classes := ["edit-section"] }
        [pageEditPara h u m]])) = countEditParas (.node k a cs) + 1 := by
  rw [countEditParas_eq, countEditParas_eq, List.map_append, List.sum_append,
    List.map_singleton, countEditParas_editSection]
  simp only [List.sum_cons, List.sum_nil]
  omega

/-- C10: the skip test is anchored at the start of the path — under the
default pattern `'_.*'` exactly the paths whose first character is an
underscore are skipped; and a pattern that matches only in the middle
of the path (here `'a'` inside `"ba"`, found by `re.search` but not by
`re.match`) does not suppress the page-edit link. -/
theorem skip_test_anchored :
    (∀ s : String, reMatch defaultSkipRegex s = true ↔ s.data.head? = some '_') ∧
      (reSearch (RE.chr 'a') "ba" = true ∧ reMatch (RE.chr 'a') "ba" = false ∧
        countEditParas (doctree_read midConfig emptyEnv "ba" sampleTree).1 =
          countEditParas sampleTree + 1) := by
  constructor
  · intro s
    rw [reMatch]
    cases hd : s.data with
    | nil => simp [reMatchL, defaultSkipRegex, RE.nullable]
    | cons c cs =>
      have hstep : reMatchL defaultSkipRegex (c :: cs) =
          reMatchL (defaultSkipRegex.deriv c) cs := by
        simp [reMatchL, defaultSkipRegex, RE.nullable]
      rw [hstep]
      by_cases hc : c = '_'
      · subst hc
        have hd2 : defaultSkipRegex.deriv '_' = RE.seq .eps (.star .dot) := by
          simp [defaultSkipRegex, RE.deriv, RE.nullable]
        rw [hd2]
        simp [reMatchL_of_nullable _ (show (RE.seq .eps (.star .dot)).nullable = true
          from rfl) cs]
      · have hd2 : defaultSkipRegex.deriv c = RE.seq .emp (.star .dot) := by
          simp [defaultSkipRegex, RE.deriv, RE.nullable, hc]
        rw [hd2]
        simp [reMatchL_seq_emp, hc]
  · refine ⟨by decide, by decide, ?_⟩
    have h1 : reMatch midConfig.skip_regex "ba" = false := by decide
    have h2 : midConfig.project ≠ "REQUIRED" := by decide
    rw [show sampleTree = Node.node .document {} ([] ++ [Node.node .section {} []]) from rfl]
    rw [doctree_read_nonempty midConfig emptyEnv "ba" h2 h1,
      if_neg (by simp [Node.classes, Node.attrs])]
    rw [countEditParas_docstringPass, countEditParas_append_editSection]
